import Mathlib

/-!
Verification of the Memory-Allocator repository (src/src/memoryBlock.h,
src/src/utils.cpp, src/src/malloc.cpp, src/src/main.cpp).

The program is embedded shallowly for a 64-bit platform:
`word_t = intptr_t` has 8 bytes, `sizeof(MemoryBlock)` is 24
(8-byte `size_t size`, 1-byte `bool isFree` padded to 8, 8-byte `next`
pointer), and `size_t` arithmetic wraps modulo `2 ^ 64`.

The heap is modelled as the singly linked chain of blocks reachable from
`heap_start`, in chain order, together with the current program break and
an OS limit: `sbrk` succeeds exactly while the break stays at or below
the limit, which models "the OS refuses to extend the address space".
Each block records its header address, its `size` field, its `isFree`
flag, and the bytes of its payload region (fresh pages obtained from the
OS read as zero).  A user pointer is the address of the byte right after
the block header, i.e. `addr + 24`.
-/

namespace MemAlloc

/-- `sizeof(word_t)` on the modelled 64-bit platform. -/
def WORD_SIZE : ℕ := 8

/-- `sizeof(MemoryBlock)` on the modelled 64-bit platform. -/
def BLOCK_HEADER : ℕ := 24

/-- `sizeof(MemoryBlock*)`: the width of the pointer variable `block`
whose size `malloc` adds to the request (source: `align(sizeof(block) + size)`
in src/src/malloc.cpp, where `block` is a `MemoryBlock*`). -/
def PTR_SIZE : ℕ := 8

/-- `2 ^ 64`, the modulus of `size_t` arithmetic. -/
def MOD : ℕ := 2 ^ 64

/-- src/src/memoryBlock.h, `align`:
`(n + sizeof(word_t) - 1) & ~(sizeof(word_t) - 1)` in `size_t` arithmetic.
`~(sizeof(word_t) - 1)` is the 64-bit constant `2 ^ 64 - 8`. -/
def align (n : ℕ) : ℕ := ((n + (WORD_SIZE - 1)) % MOD) &&& (MOD - WORD_SIZE)

/-- src/src/memoryBlock.h, `allocSize`:
`size + sizeof(MemoryBlock) - sizeof(std::declval<MemoryBlock>().size)`,
i.e. `size + 24 - 8` in wrapping `size_t` arithmetic. -/
def allocSize (size : ℕ) : ℕ := ((size + BLOCK_HEADER) % MOD + (MOD - WORD_SIZE)) % MOD

/-- One node of the block chain (src/src/memoryBlock.h, `struct MemoryBlock`).
`addr` is the address of the block header; the user payload starts at
`addr + BLOCK_HEADER`.  `data` holds the bytes of the payload region.
The `next` pointer of the struct is represented by the list order of the
chain. -/
structure MemoryBlock where
  addr : ℕ
  size : ℕ
  isFree : Bool
  data : List ℕ
  deriving DecidableEq, Repr

/-- The global allocator state: the chain of blocks starting at
`heap_start` (empty list = `heap_start == nullptr`), the current program
break, and the highest break the OS will grant (`sbrk` fails beyond it). -/
structure Heap where
  blocks : List MemoryBlock
  brk : ℕ
  osMax : ℕ
  deriving DecidableEq, Repr

/-- The payload address of a block: `(void*)(block + 1)`. -/
def MemoryBlock.payload (b : MemoryBlock) : ℕ := b.addr + BLOCK_HEADER

/-- src/src/utils.cpp, `findFreeBlock`: linear scan from `heap_start`
for the first block with `isFree && size >= requested`.  Returns the
chain index together with the block found (the source returns the
pointer; the index records its position for splicing). -/
def findFreeBlock : List MemoryBlock → ℕ → Option (ℕ × MemoryBlock)
  | [], _ => none
  | b :: rest, size =>
      if b.isFree && size ≤ b.size then some (0, b)
      else (findFreeBlock rest size).map (fun p => (p.1 + 1, p.2))

/-- src/src/utils.cpp, `splitBlock`: the guard compares
`block->size <= size + sizeof(MemoryBlock)` in `size_t` arithmetic, so
the sum wraps modulo `2 ^ 64`; if the guard fails, carve a new free
block immediately after `size` payload bytes whose `size` field is
`block->size - size - sizeof(MemoryBlock)`, again in wrapping `size_t`
arithmetic (`(b.size + (MOD - (size + 24) % MOD)) % MOD` is the natural
number representing that wrapping difference), splice it in front of
the old successor (list order realises the `next`-pointer splice) and
shrink the block to `size`; otherwise leave the block whole.  Returns
the node(s) that replace the block in the chain. -/
def splitBlock (b : MemoryBlock) (size : ℕ) : List MemoryBlock :=
  if b.size ≤ (size + BLOCK_HEADER) % MOD then [b]
  else
    [{ b with size := size, data := b.data.take size },
     { addr := b.addr + BLOCK_HEADER + size,
       size := (b.size + (MOD - (size + BLOCK_HEADER) % MOD)) % MOD,
       isFree := true,
       data := b.data.drop (size + BLOCK_HEADER) }]

/-- src/src/utils.cpp, `requestSpace`: `sbrk(0)` yields the current
break as the new header address, `sbrk(allocSize(size))` extends the
break (failing if the OS limit is exceeded), `heap_start` is set to the
new block when it was null, and the block is initialised with the given
`size`, not free, `next = nullptr`.  Fresh OS pages read as zero. -/
def requestSpace (h : Heap) (size : ℕ) : Option (Heap × MemoryBlock) :=
  if h.brk + allocSize size ≤ h.osMax then
    let block : MemoryBlock :=
      { addr := h.brk, size := size, isFree := false, data := List.replicate size 0 }
    some ({ blocks := if h.blocks.isEmpty then [block] else h.blocks,
            brk := h.brk + allocSize size,
            osMax := h.osMax }, block)
  else none

/-- The span `malloc` actually reserves for a request:
`align(sizeof(block) + size)` from src/src/malloc.cpp, where
`sizeof(block)` is the size of a `MemoryBlock*` pointer (8 bytes), the
sum taken in wrapping `size_t` arithmetic. -/
def mallocSpan (size : ℕ) : ℕ := align ((PTR_SIZE + size) % MOD)

/-- Replace the chain entry at index `i` by the given nodes (used to
realise `splitBlock`'s splice inside `malloc`). -/
def replaceAt (bs : List MemoryBlock) (i : ℕ) (xs : List MemoryBlock) : List MemoryBlock :=
  bs.take i ++ xs ++ bs.drop (i + 1)

/-- src/src/malloc.cpp, `malloc`.  `size` is the `size_t` argument value;
`size <= 0` on an unsigned type only rejects `0`.  Returns the updated
heap and the user pointer `(void*)(block + 1)`, or `none` for `nullptr`
(in which case the heap is unchanged: the failing paths mutate nothing). -/
def malloc (h : Heap) (size : ℕ) : Option (Heap × ℕ) :=
  if size = 0 then none
  else
    let span := mallocSpan size
    if h.blocks.isEmpty then
      match requestSpace h span with
      | none => none
      | some (h', b) => some ({ h' with blocks := [b] }, b.payload)
    else
      match findFreeBlock h.blocks span with
      | some (i, b) =>
          some ({ h with blocks := replaceAt h.blocks i (splitBlock { b with isFree := false } span) },
                b.payload)
      | none =>
          match requestSpace h span with
          | none => none
          | some (h', b) => some ({ h' with blocks := h.blocks ++ [b] }, b.payload)

/-- Absorb block `c` into its chain predecessor `a`:
`a.size += sizeof(MemoryBlock) + c.size; a.next = c.next` (both merge
loops in src/src/utils.cpp use exactly this update).  The 24 header
bytes of `c` become payload bytes of `a`; their values are never read
by any embedded operation and are represented as zeros. -/
def mergeInto (a c : MemoryBlock) : MemoryBlock :=
  { a with size := (a.size + BLOCK_HEADER + c.size) % MOD,
           data := a.data ++ List.replicate BLOCK_HEADER 0 ++ c.data }

/-- src/src/utils.cpp, `mergeBlocks`: `while (next && next->isFree)`
absorb the successor.  Returns the merged block and the remaining
successors. -/
def mergeRun (b : MemoryBlock) : List MemoryBlock → MemoryBlock × List MemoryBlock
  | [] => (b, [])
  | c :: cs => if c.isFree then mergeRun (mergeInto b c) cs else (b, c :: cs)

/-- First step of src/src/utils.cpp, `mergeFreeBlocks`: merge with the
successor at most once (`if (block->next && block->next->isFree)`). -/
def forwardOnce (b : MemoryBlock) : List MemoryBlock → MemoryBlock × List MemoryBlock
  | [] => (b, [])
  | c :: cs => if c.isFree then (mergeInto b c, cs) else (b, c :: cs)

/-- Index of the first chain block whose payload starts at `p`
(recovering the owner of a user pointer; the source computes
`(MemoryBlock*)ptr - 1` directly). -/
def blockIndexOf : List MemoryBlock → ℕ → Option ℕ
  | [], _ => none
  | b :: rest, p =>
      if b.payload = p then some 0 else (blockIndexOf rest p).map (· + 1)

/-- The first chain block whose payload starts at `p`. -/
def lookupPayload : List MemoryBlock → ℕ → Option MemoryBlock
  | [], _ => none
  | b :: rest, p => if b.payload = p then some b else lookupPayload rest p

/-- Second step of src/src/utils.cpp, `mergeFreeBlocks`, followed by the
`mergeBlocks` call in `free`: scan from `heap_start` for the predecessor
(`current->next == block`); if it is free, absorb the block into it —
after which the trailing `mergeBlocks(block)` runs on the unlinked node
and only mutates that dangling node, leaving the chain unchanged.
Otherwise the block stays in the chain and `mergeBlocks(block)` keeps
absorbing free successors. -/
def finishFree (pre : List MemoryBlock) (b : MemoryBlock) (suf : List MemoryBlock) :
    List MemoryBlock :=
  match pre.getLast? with
  | some q =>
      if q.isFree then pre.dropLast ++ mergeInto q b :: suf
      else pre ++ (mergeRun b suf).1 :: (mergeRun b suf).2
  | none => pre ++ (mergeRun b suf).1 :: (mergeRun b suf).2

/-- The effect of `free` on the chain once the owning block's index is
known: mark it free, merge forward once, merge backward once, then run
the residual `mergeBlocks` loop. -/
def freeAt (bs : List MemoryBlock) (i : ℕ) : List MemoryBlock :=
  match bs[i]? with
  | none => bs
  | some b =>
      let fw := forwardOnce { b with isFree := true } (bs.drop (i + 1))
      finishFree (bs.take i) fw.1 fw.2

/-- src/src/malloc.cpp, `free`: no-op on `nullptr`; otherwise recover
the owning block from the user pointer and run the merge protocol.
Passing a pointer not obtained from this allocator is undefined
behaviour in the source; it is modelled as a no-op. -/
def free (h : Heap) (ptr : Option ℕ) : Heap :=
  match ptr with
  | none => h
  | some p =>
      match blockIndexOf h.blocks p with
      | none => h
      | some i => { h with blocks := freeAt h.blocks i }

/-- Update the data of the first chain block whose payload starts at `p`. -/
def setDataAt : List MemoryBlock → ℕ → (List ℕ → List ℕ) → List MemoryBlock
  | [], _, _ => []
  | b :: rest, p, f =>
      if b.payload = p then { b with data := f b.data } :: rest
      else b :: setDataAt rest p f

/-- `memcpy(dst, src, n)` between payload regions of chain blocks. -/
def memcpyBlocks (bs : List MemoryBlock) (dst src n : ℕ) : List MemoryBlock :=
  match lookupPayload bs src with
  | none => bs
  | some s => setDataAt bs dst (fun d => s.data.take n ++ d.drop n)

/-- `memset(p, 0, n)` on the payload region of a chain block. -/
def memsetZero (bs : List MemoryBlock) (p n : ℕ) : List MemoryBlock :=
  setDataAt bs p (fun d => List.replicate n 0 ++ d.drop n)

/-- src/src/malloc.cpp, `realloc`: null pointer behaves as `malloc`;
`size == 0` frees and returns null; a block with `size` capacity already
is returned unchanged; otherwise allocate, `memcpy` the old `block->size`
bytes, free the old pointer, return the new one — or return null and
mutate nothing if the allocation fails. -/
def realloc (h : Heap) (ptr : Option ℕ) (size : ℕ) : Heap × Option ℕ :=
  match ptr with
  | none =>
      match malloc h size with
      | none => (h, none)
      | some (h', q) => (h', some q)
  | some p =>
      if size = 0 then (free h (some p), none)
      else
        match lookupPayload h.blocks p with
        | none => (h, none)
        | some b =>
            if size ≤ b.size then (h, some p)
            else
              match malloc h size with
              | none => (h, none)
              | some (h', q) =>
                  (free { h' with blocks := memcpyBlocks h'.blocks q p b.size } (some p),
                   some q)

/-- src/src/malloc.cpp, `calloc`: `total = num * size` in wrapping
`size_t` arithmetic; reject when `num != 0 && total / num != size`;
otherwise `malloc(total)` and zero-fill on success. -/
def calloc (h : Heap) (num size : ℕ) : Heap × Option ℕ :=
  let total := (num * size) % MOD
  if num ≠ 0 ∧ total / num ≠ size then (h, none)
  else
    match malloc h total with
    | none => (h, none)
    | some (h', p) => ({ h' with blocks := memsetZero h'.blocks p total }, some p)

/-- src/src/main.cpp, `memoryInfo`: total block count of the chain. -/
def blockCount (h : Heap) : ℕ := h.blocks.length

/-- src/src/main.cpp, `memoryInfo`: number of chain blocks with
`isFree` set. -/
def freeBlockCount (h : Heap) : ℕ := (h.blocks.filter (fun b => b.isFree)).length

/-- The span the spec claims `allocate` reserves: `align(header size +
payloadSize)` (spec §4.1, `requiredSpan`).  Stated from the spec's words,
for comparison with the source's `mallocSpan`. -/
def requiredSpanSpec (size : ℕ) : ℕ := align ((BLOCK_HEADER + size) % MOD)

/-! ## Helper lemmas -/

theorem requestSpace_inv {h : Heap} {span : ℕ} {h' : Heap} {b : MemoryBlock}
    (hr : requestSpace h span = some (h', b)) :
    h' = ⟨if h.blocks.isEmpty then [b] else h.blocks, h.brk + allocSize span, h.osMax⟩ ∧
    b = ⟨h.brk, span, false, List.replicate span 0⟩ ∧
    h.brk + allocSize span ≤ h.osMax := by
  rw [requestSpace] at hr
  split at hr
  case isTrue hc =>
    simp only [Option.some.injEq, Prod.mk.injEq] at hr
    obtain ⟨h1, h2⟩ := hr
    subst h2
    refine ⟨?_, rfl, hc⟩
    rw [← h1]
  case isFalse hc => exact absurd hr (by simp)

theorem requestSpace_none_iff (h : Heap) (span : ℕ) :
    requestSpace h span = none ↔ h.osMax < h.brk + allocSize span := by
  rw [requestSpace]
  by_cases hc : h.brk + allocSize span ≤ h.osMax
  · rw [if_pos hc]; simp; omega
  · rw [if_neg hc]; simp; omega

theorem malloc_empty_inv {b0 m : ℕ} {h' : Heap} {p s : ℕ} (hs : s ≠ 0)
    (hm : malloc ⟨[], b0, m⟩ s = some (h', p)) :
    h' = ⟨[⟨b0, mallocSpan s, false, List.replicate (mallocSpan s) 0⟩],
          b0 + allocSize (mallocSpan s), m⟩ ∧
    p = b0 + BLOCK_HEADER := by
  rw [malloc] at hm
  rw [if_neg hs] at hm
  rw [if_pos (show (Heap.blocks ⟨[], b0, m⟩).isEmpty = true from rfl)] at hm
  cases hr : requestSpace ⟨[], b0, m⟩ (mallocSpan s) with
  | none => rw [hr] at hm; exact absurd hm (by simp)
  | some r =>
      obtain ⟨hh, hb⟩ := r
      obtain ⟨h1, h2, _⟩ := requestSpace_inv hr
      subst h1; subst h2
      simp only [hr, Option.some.injEq, Prod.mk.injEq] at hm
      obtain ⟨h3, h4⟩ := hm
      refine ⟨?_, h4.symm⟩
      rw [← h3]

theorem malloc_miss_inv {bs : List MemoryBlock} {brk mx : ℕ} {h' : Heap} {p s : ℕ}
    (hs : s ≠ 0) (hne : bs ≠ [])
    (hf : findFreeBlock bs (mallocSpan s) = none)
    (hm : malloc ⟨bs, brk, mx⟩ s = some (h', p)) :
    h' = ⟨bs ++ [⟨brk, mallocSpan s, false, List.replicate (mallocSpan s) 0⟩],
          brk + allocSize (mallocSpan s), mx⟩ ∧
    p = brk + BLOCK_HEADER := by
  have hemp : ¬ (Heap.blocks ⟨bs, brk, mx⟩).isEmpty = true := by
    simp [List.isEmpty_iff, hne]
  rw [malloc] at hm
  rw [if_neg hs] at hm
  rw [if_neg hemp] at hm
  rw [hf] at hm
  cases hr : requestSpace ⟨bs, brk, mx⟩ (mallocSpan s) with
  | none =>
      rw [hr] at hm
      exact absurd hm (by simp)
  | some r =>
      obtain ⟨hh, hb⟩ := r
      obtain ⟨h1, h2, _⟩ := requestSpace_inv hr
      subst h1; subst h2
      rw [hr] at hm
      simp only [Option.some.injEq, Prod.mk.injEq] at hm
      obtain ⟨h3, h4⟩ := hm
      refine ⟨?_, h4.symm⟩
      rw [← h3]

theorem malloc_hit_inv {bs : List MemoryBlock} {brk mx : ℕ} {h' : Heap} {p s i : ℕ}
    {b : MemoryBlock} (hs : s ≠ 0)
    (hf : findFreeBlock bs (mallocSpan s) = some (i, b))
    (hm : malloc ⟨bs, brk, mx⟩ s = some (h', p)) :
    h' = ⟨replaceAt bs i (splitBlock { b with isFree := false } (mallocSpan s)), brk, mx⟩ ∧
    p = b.addr + BLOCK_HEADER := by
  have hne : bs ≠ [] := by
    intro he; rw [he] at hf; simp [findFreeBlock] at hf
  have hemp : ¬ (Heap.blocks ⟨bs, brk, mx⟩).isEmpty = true := by
    simp [List.isEmpty_iff, hne]
  rw [malloc] at hm
  rw [if_neg hs] at hm
  rw [if_neg hemp] at hm
  rw [hf] at hm
  simp only [Option.some.injEq, Prod.mk.injEq] at hm
  obtain ⟨h3, h4⟩ := hm
  exact ⟨h3.symm, h4.symm⟩

theorem findFreeBlock_eq_none_iff (bs : List MemoryBlock) (s : ℕ) :
    findFreeBlock bs s = none ↔ ∀ b ∈ bs, b.isFree = false ∨ b.size < s := by
  induction bs with
  | nil => simp [findFreeBlock]
  | cons a rest ih =>
    rw [findFreeBlock]
    by_cases hc : (a.isFree && decide (s ≤ a.size)) = true
    · rw [if_pos hc]
      simp only [Bool.and_eq_true, decide_eq_true_eq] at hc
      simp only [List.mem_cons]
      constructor
      · intro h; exact absurd h (by simp)
      · intro h
        rcases h a (Or.inl rfl) with h' | h'
        · rw [hc.1] at h'; exact absurd h' (by simp)
        · omega
    · rw [if_neg hc]
      simp only [Bool.and_eq_true, decide_eq_true_eq, not_and_or, Bool.not_eq_true,
        Nat.not_le] at hc
      simp only [Option.map_eq_none', List.mem_cons, ih]
      constructor
      · rintro h b (rfl | hb)
        · exact hc
        · exact h b hb
      · intro h b hb; exact h b (Or.inr hb)

theorem findFreeBlock_some_spec (bs : List MemoryBlock) (s : ℕ) :
    ∀ i b, findFreeBlock bs s = some (i, b) →
      bs[i]? = some b ∧ b.isFree = true ∧ s ≤ b.size ∧
      ∀ j c, j < i → bs[j]? = some c → c.isFree = false ∨ c.size < s := by
  induction bs with
  | nil => intro i b h; simp [findFreeBlock] at h
  | cons a rest ih =>
    intro i b h
    rw [findFreeBlock] at h
    by_cases hc : (a.isFree && decide (s ≤ a.size)) = true
    · rw [if_pos hc] at h
      simp only [Option.some.injEq, Prod.mk.injEq] at h
      obtain ⟨rfl, rfl⟩ := h
      simp only [Bool.and_eq_true, decide_eq_true_eq] at hc
      exact ⟨by simp, hc.1, hc.2, fun j c hj _ => absurd hj (by omega)⟩
    · rw [if_neg hc] at h
      obtain ⟨⟨i', b'⟩, hf, heq⟩ := Option.map_eq_some'.mp h
      simp only [Prod.mk.injEq] at heq
      obtain ⟨rfl, rfl⟩ := heq
      obtain ⟨hg, hfree, hsize, hmin⟩ := ih i' b' hf
      refine ⟨by simpa using hg, hfree, hsize, ?_⟩
      intro j c hj hgc
      match j with
      | 0 =>
          simp only [List.getElem?_cons_zero, Option.some.injEq] at hgc
          subst hgc
          simp only [Bool.and_eq_true, decide_eq_true_eq, not_and_or, Bool.not_eq_true,
            Nat.not_le] at hc
          exact hc
      | j' + 1 =>
          simp only [List.getElem?_cons_succ] at hgc
          exact hmin j' c (by omega) hgc

theorem splitBlock_head (b : MemoryBlock) (s : ℕ) :
    ∃ x tl, splitBlock b s = x :: tl ∧ x.addr = b.addr ∧ x.isFree = b.isFree := by
  rw [splitBlock]
  by_cases hc : b.size ≤ (s + BLOCK_HEADER) % MOD
  · rw [if_pos hc]; exact ⟨b, [], rfl, rfl, rfl⟩
  · rw [if_neg hc]
    exact ⟨{ b with size := s, data := b.data.take s }, _, rfl, rfl, rfl⟩

theorem lookupPayload_isSome_of_mem {bs : List MemoryBlock} {p : ℕ}
    (hx : ∃ x ∈ bs, x.payload = p) : ∃ r, lookupPayload bs p = some r := by
  induction bs with
  | nil => simp at hx
  | cons a rest ih =>
      rw [lookupPayload]
      by_cases ha : a.payload = p
      · rw [if_pos ha]; exact ⟨a, rfl⟩
      · rw [if_neg ha]
        obtain ⟨x, hmem, hp⟩ := hx
        rcases List.mem_cons.mp hmem with rfl | hmem'
        · exact absurd hp ha
        · exact ih ⟨x, hmem', hp⟩

theorem lookupPayload_setDataAt_self (bs : List MemoryBlock) (p : ℕ) (f : List ℕ → List ℕ) :
    lookupPayload (setDataAt bs p f) p =
      (lookupPayload bs p).map (fun b => { b with data := f b.data }) := by
  induction bs with
  | nil => rfl
  | cons a rest ih =>
      by_cases ha : a.payload = p
      · rw [lookupPayload, if_pos ha]
        rw [setDataAt, if_pos ha]
        rw [lookupPayload,
          if_pos (show ({ a with data := f a.data } : MemoryBlock).payload = p from ha)]
        rfl
      · rw [lookupPayload, if_neg ha]
        rw [setDataAt, if_neg ha]
        rw [lookupPayload, if_neg ha]
        exact ih

theorem malloc_cases {h h' : Heap} {q s : ℕ} (hm : malloc h s = some (h', q)) :
    (h.blocks = [] ∧
      h' = ⟨[⟨h.brk, mallocSpan s, false, List.replicate (mallocSpan s) 0⟩],
            h.brk + allocSize (mallocSpan s), h.osMax⟩ ∧
      q = h.brk + BLOCK_HEADER) ∨
    (∃ i b, findFreeBlock h.blocks (mallocSpan s) = some (i, b) ∧
      h' = ⟨replaceAt h.blocks i (splitBlock { b with isFree := false } (mallocSpan s)),
            h.brk, h.osMax⟩ ∧
      q = b.addr + BLOCK_HEADER) ∨
    (h.blocks ≠ [] ∧ findFreeBlock h.blocks (mallocSpan s) = none ∧
      h' = ⟨h.blocks ++ [⟨h.brk, mallocSpan s, false, List.replicate (mallocSpan s) 0⟩],
            h.brk + allocSize (mallocSpan s), h.osMax⟩ ∧
      q = h.brk + BLOCK_HEADER) := by
  have hs : s ≠ 0 := by
    intro h0
    rw [h0] at hm
    simp [malloc] at hm
  obtain ⟨bs, brk, mx⟩ := h
  by_cases hbs : bs = []
  · subst hbs
    exact Or.inl ⟨rfl, malloc_empty_inv hs hm⟩
  · cases hfind : findFreeBlock bs (mallocSpan s) with
    | none =>
        exact Or.inr (Or.inr ⟨hbs, rfl, malloc_miss_inv hs hbs hfind hm⟩)
    | some r =>
        obtain ⟨i, b⟩ := r
        obtain ⟨h1, h2⟩ := malloc_hit_inv hs hfind hm
        exact Or.inr (Or.inl ⟨i, b, rfl, h1, h2⟩)

theorem malloc_payload_lookup {h h' : Heap} {q s : ℕ} (hm : malloc h s = some (h', q)) :
    ∃ D, lookupPayload h'.blocks q = some D := by
  rcases malloc_cases hm with ⟨_, hh, hq⟩ | ⟨i, b, _, hh, hq⟩ | ⟨_, _, hh, hq⟩
  · subst hh; subst hq
    refine ⟨⟨h.brk, mallocSpan s, false, List.replicate (mallocSpan s) 0⟩, ?_⟩
    simp [lookupPayload, MemoryBlock.payload]
  · subst hh; subst hq
    obtain ⟨x, tl, hsplit, haddr, _⟩ := splitBlock_head { b with isFree := false } (mallocSpan s)
    apply lookupPayload_isSome_of_mem
    refine ⟨x, ?_, ?_⟩
    · show x ∈ replaceAt h.blocks i (splitBlock { b with isFree := false } (mallocSpan s))
      rw [replaceAt, hsplit]
      simp
    · show x.payload = b.addr + BLOCK_HEADER
      rw [MemoryBlock.payload, haddr]
  · subst hh; subst hq
    apply lookupPayload_isSome_of_mem
    exact ⟨⟨h.brk, mallocSpan s, false, List.replicate (mallocSpan s) 0⟩, by simp,
      by rw [MemoryBlock.payload]⟩

/-! ## Claim theorems -/

/-- C9 (amended): `malloc`'s guard `size <= 0` on the unsigned `size_t`
parameter only rejects `size == 0`; `malloc(0)` returns null with the
heap untouched (the model returns `none` and no state). -/
theorem malloc_rejects_only_zero (h : Heap) : malloc h 0 = none := by
  simp [malloc]

/-- Counterexample for C9 as stated: a caller's `-1` arrives as the
`size_t` value `2^64 - 1`; the guard does not fire, the span wraps to 8
bytes, and `malloc` returns a non-null pointer (address 24), having
grown the arena by 24 bytes. -/
theorem malloc_negative_size_counterexample :
    malloc ⟨[], 0, 100⟩ (MOD - 1) =
      some (⟨[⟨0, 8, false, List.replicate 8 0⟩], 24, 100⟩, 24) := by
  decide

/-- C3 (amended): a successful `requestSpace(span)` requests
`allocSize(span) = span + header - word` bytes from the OS (not `span`
bytes), returns a block header positioned at the prior arena end whose
`size` field equals `span` itself (not `span - header`), marked used and
with no successor (it is linked as head when the chain was empty and is
otherwise returned unlinked); growth fails exactly when the OS limit is
exceeded. -/
theorem requestSpace_spec (h : Heap) (span : ℕ) :
    (∀ h' b, requestSpace h span = some (h', b) →
      h'.brk = h.brk + allocSize span ∧ h'.osMax = h.osMax ∧
      b.addr = h.brk ∧ b.size = span ∧ b.isFree = false ∧
      (h.blocks = [] → h'.blocks = [b]) ∧
      (h.blocks ≠ [] → h'.blocks = h.blocks)) ∧
    (requestSpace h span = none ↔ h.osMax < h.brk + allocSize span) := by
  constructor
  · intro h' b hr
    rw [requestSpace] at hr
    split at hr
    · simp only [Option.some.injEq, Prod.mk.injEq] at hr
      obtain ⟨hh, hb⟩ := hr
      subst hh hb
      refine ⟨rfl, rfl, rfl, rfl, rfl, fun he => ?_, fun hne => ?_⟩
      · simp [he]
      · simp [List.isEmpty_iff, hne]
    · exact absurd hr (by simp)
  · rw [requestSpace]
    by_cases hc : h.brk + allocSize span ≤ h.osMax
    · rw [if_pos hc]; simp; omega
    · rw [if_neg hc]; simp; omega

/-- Witness for C3 at a concrete input: growing an empty arena by an
aligned span of 32 moves the break by `allocSize 32 = 48` and yields a
used block of capacity 32 at the prior end. -/
theorem requestSpace_spec_witness :
    (requestSpace ⟨[], 0, 1000⟩ 32 =
        some (⟨[⟨0, 32, false, List.replicate 32 0⟩], 48, 1000⟩,
              ⟨0, 32, false, List.replicate 32 0⟩)) ∧
    (48 : ℕ) = 0 + allocSize 32 ∧
    ((⟨0, 32, false, List.replicate 32 0⟩ : MemoryBlock).size = 32 ∧
      (⟨0, 32, false, List.replicate 32 0⟩ : MemoryBlock).isFree = false) ∧
    requestSpace ⟨[], 100, 10⟩ 32 = none := by
  have hr : requestSpace ⟨[], 0, 1000⟩ 32 =
      some (⟨[⟨0, 32, false, List.replicate 32 0⟩], 48, 1000⟩,
            ⟨0, 32, false, List.replicate 32 0⟩) := by decide
  refine ⟨hr, ?_, ?_, ?_⟩
  · have := ((requestSpace_spec ⟨[], 0, 1000⟩ 32).1 _ _ hr).1
    simpa using this.symm
  · exact ⟨((requestSpace_spec ⟨[], 0, 1000⟩ 32).1 _ _ hr).2.2.2.1,
      ((requestSpace_spec ⟨[], 0, 1000⟩ 32).1 _ _ hr).2.2.2.2.1⟩
  · exact ((requestSpace_spec ⟨[], 100, 10⟩ 32).2).mpr (by decide)

/-- Counterexample for C3 as stated: growing by the aligned span 32
moves the break by 48, not 32, and records capacity 32, not
`32 - header = 8`. -/
theorem requestSpace_counterexample :
    (requestSpace ⟨[], 0, 1000⟩ 32).map (fun r => (r.1.brk, r.2.size)) =
      some (48, 32) ∧
    ¬((48 : ℕ) = 0 + 32 ∧ (32 : ℕ) = 32 - BLOCK_HEADER) := by
  decide

/-- C2 (amended): for every request `s > 0` the span `malloc` reserves is
`align(sizeof(MemoryBlock*) + s)` — one pointer-width (8 bytes) more than
the payload, not the full 24-byte block header — computed in wrapping
`size_t` arithmetic; this `mallocSpan s` is the value passed to the
first-fit search, to `splitBlock`, and to arena growth. -/
theorem malloc_span_spec (h : Heap) (s : ℕ) (hs : s ≠ 0) :
    mallocSpan s = align ((PTR_SIZE + s) % MOD) ∧
    (h.blocks = [] → h.brk + allocSize (mallocSpan s) ≤ h.osMax →
      malloc h s =
        some (⟨[⟨h.brk, mallocSpan s, false, List.replicate (mallocSpan s) 0⟩],
               h.brk + allocSize (mallocSpan s), h.osMax⟩,
              h.brk + BLOCK_HEADER)) ∧
    (∀ i b, findFreeBlock h.blocks (mallocSpan s) = some (i, b) →
      malloc h s =
        some ({ h with blocks :=
                  replaceAt h.blocks i (splitBlock { b with isFree := false } (mallocSpan s)) },
              b.addr + BLOCK_HEADER)) ∧
    (h.blocks ≠ [] → findFreeBlock h.blocks (mallocSpan s) = none →
      requestSpace h (mallocSpan s) = none → malloc h s = none) := by
  refine ⟨rfl, fun he hos => ?_, fun i b hf => ?_, fun hne hf hr => ?_⟩
  · rw [malloc, if_neg hs]
    rw [if_pos (by simp [he])]
    rw [requestSpace, if_pos (by simpa using hos)]
    simp [he, MemoryBlock.payload]
  · have hne : h.blocks ≠ [] := by
      intro he
      rw [he] at hf
      simp [findFreeBlock] at hf
    rw [malloc, if_neg hs]
    rw [if_neg (by simp [List.isEmpty_iff, hne])]
    rw [hf]
    rfl
  · rw [malloc, if_neg hs]
    rw [if_neg (by simp [List.isEmpty_iff, hne])]
    rw [hf, hr]

/-- Witness for C2 (amended) at a concrete input: for `s = 4` the span is
`align(8 + 4) = 16`, and `malloc` on an empty arena reserves exactly that
span (block capacity 16, break grown by `allocSize 16 = 32`). -/
theorem malloc_span_spec_witness :
    mallocSpan 4 = align ((PTR_SIZE + 4) % MOD) ∧
    malloc ⟨[], 0, 100⟩ 4 =
      some (⟨[⟨0, mallocSpan 4, false, List.replicate (mallocSpan 4) 0⟩],
             0 + allocSize (mallocSpan 4), 100⟩, 0 + BLOCK_HEADER) := by
  refine ⟨(malloc_span_spec ⟨[], 0, 100⟩ 4 (by decide)).1, ?_⟩
  exact (malloc_span_spec ⟨[], 0, 100⟩ 4 (by decide)).2.1 rfl (by decide)

/-- Counterexample for C2 as stated: at request size 4 the reserved span
(observable as the grown block's recorded capacity) is `mallocSpan 4 = 16`,
while `align(header size + 4) = 32`. -/
theorem malloc_span_counterexample :
    mallocSpan 4 = 16 ∧ requiredSpanSpec 4 = 32 ∧
    (malloc ⟨[], 0, 100⟩ 4).map (fun r => r.1.blocks.map MemoryBlock.size) =
      some [16] ∧
    mallocSpan 4 ≠ requiredSpanSpec 4 := by
  decide

/-- C6: if `realloc(p, s)` needs a bigger block (`p` valid, `s > 0`,
`s` above the current capacity) and the fresh `malloc` fails, `realloc`
returns null and the heap is returned exactly as it was — in particular
the original block is still present, used, with its capacity and payload
intact. -/
theorem realloc_alloc_failure (h : Heap) (p s : ℕ) (b : MemoryBlock)
    (hb : lookupPayload h.blocks p = some b) (hs : s ≠ 0) (hlt : b.size < s)
    (hm : malloc h s = none) :
    realloc h (some p) s = (h, none) ∧
    lookupPayload (realloc h (some p) s).1.blocks p = some b := by
  have hmain : realloc h (some p) s = (h, none) := by
    have hle : ¬ s ≤ b.size := by omega
    simp [realloc, hs, hb, hle, hm]
  exact ⟨hmain, by rw [hmain]; exact hb⟩

/-- Witness for C6 at a concrete input: a one-block heap whose OS limit
forbids any growth; reallocating its used 8-byte block to 16 bytes fails
and leaves the heap identical. -/
theorem realloc_alloc_failure_witness :
    lookupPayload (Heap.blocks ⟨[⟨0, 8, false, List.replicate 8 0⟩], 24, 24⟩) 24 =
      some ⟨0, 8, false, List.replicate 8 0⟩ ∧
    realloc ⟨[⟨0, 8, false, List.replicate 8 0⟩], 24, 24⟩ (some 24) 16 =
      (⟨[⟨0, 8, false, List.replicate 8 0⟩], 24, 24⟩, none) := by
  refine ⟨by decide, ?_⟩
  exact (realloc_alloc_failure ⟨[⟨0, 8, false, List.replicate 8 0⟩], 24, 24⟩ 24 16
    ⟨0, 8, false, List.replicate 8 0⟩ (by decide) (by decide) (by decide) (by decide)).1

/-- C1: from an empty arena, allocating three int-sized blocks A, B, C in
address order and then releasing B, then C, then A leaves a chain of
exactly one block, which is free: `blockCount = 1` and
`freeBlockCount = 1` (release merges forward and then backward, so the
middle-out pattern fully coalesces). -/
theorem middle_out_release_coalesces (b0 m : ℕ) (h1 h2 h3 : Heap) (pA pB pC : ℕ)
    (m1 : malloc ⟨[], b0, m⟩ 4 = some (h1, pA))
    (m2 : malloc h1 4 = some (h2, pB))
    (m3 : malloc h2 4 = some (h3, pC)) :
    blockCount (free (free (free h3 (some pB)) (some pC)) (some pA)) = 1 ∧
    freeBlockCount (free (free (free h3 (some pB)) (some pC)) (some pA)) = 1 := by
  have hspan : mallocSpan 4 = 16 := by decide
  have halloc : allocSize 16 = 32 := by decide
  obtain ⟨e1, e2⟩ := malloc_empty_inv (by decide) m1
  rw [hspan, halloc] at e1
  subst e1; subst e2
  have hf1 : findFreeBlock [⟨b0, 16, false, List.replicate 16 0⟩] (mallocSpan 4) = none := by
    rw [hspan]; simp [findFreeBlock]
  obtain ⟨e3, e4⟩ := malloc_miss_inv (by decide) (by simp) hf1 m2
  rw [hspan, halloc] at e3
  simp only [List.cons_append, List.nil_append] at e3
  subst e3; subst e4
  have hf2 : findFreeBlock
      [⟨b0, 16, false, List.replicate 16 0⟩, ⟨b0 + 32, 16, false, List.replicate 16 0⟩]
      (mallocSpan 4) = none := by
    rw [hspan]; simp [findFreeBlock]
  obtain ⟨e5, e6⟩ := malloc_miss_inv (by decide) (by simp) hf2 m3
  rw [hspan, halloc] at e5
  simp only [List.cons_append, List.nil_append] at e5
  subst e5; subst e6
  have hidxB : blockIndexOf
      [⟨b0, 16, false, List.replicate 16 0⟩, ⟨b0 + 32, 16, false, List.replicate 16 0⟩,
       ⟨b0 + 32 + 32, 16, false, List.replicate 16 0⟩]
      (b0 + 32 + BLOCK_HEADER) = some 1 := by
    simp [blockIndexOf, MemoryBlock.payload, BLOCK_HEADER, Nat.add_assoc]
  have s1 : free ⟨[⟨b0, 16, false, List.replicate 16 0⟩, ⟨b0 + 32, 16, false, List.replicate 16 0⟩,
        ⟨b0 + 32 + 32, 16, false, List.replicate 16 0⟩], b0 + 32 + 32 + 32, m⟩
        (some (b0 + 32 + BLOCK_HEADER)) =
      ⟨[⟨b0, 16, false, List.replicate 16 0⟩, ⟨b0 + 32, 16, true, List.replicate 16 0⟩,
        ⟨b0 + 32 + 32, 16, false, List.replicate 16 0⟩], b0 + 32 + 32 + 32, m⟩ := by
    simp only [free, hidxB]
    rfl
  rw [s1]
  have hidxC : blockIndexOf
      [⟨b0, 16, false, List.replicate 16 0⟩, ⟨b0 + 32, 16, true, List.replicate 16 0⟩,
       ⟨b0 + 32 + 32, 16, false, List.replicate 16 0⟩]
      (b0 + 32 + 32 + BLOCK_HEADER) = some 2 := by
    simp [blockIndexOf, MemoryBlock.payload, BLOCK_HEADER, Nat.add_assoc]
  have s2 : free ⟨[⟨b0, 16, false, List.replicate 16 0⟩, ⟨b0 + 32, 16, true, List.replicate 16 0⟩,
        ⟨b0 + 32 + 32, 16, false, List.replicate 16 0⟩], b0 + 32 + 32 + 32, m⟩
        (some (b0 + 32 + 32 + BLOCK_HEADER)) =
      ⟨[⟨b0, 16, false, List.replicate 16 0⟩,
        ⟨b0 + 32, 56, true,
          List.replicate 16 0 ++ List.replicate BLOCK_HEADER 0 ++ List.replicate 16 0⟩],
        b0 + 32 + 32 + 32, m⟩ := by
    simp only [free, hidxC]
    rfl
  rw [s2]
  have hidxA : blockIndexOf
      [⟨b0, 16, false, List.replicate 16 0⟩,
       ⟨b0 + 32, 56, true,
         List.replicate 16 0 ++ List.replicate BLOCK_HEADER 0 ++ List.replicate 16 0⟩]
      (b0 + BLOCK_HEADER) = some 0 := by
    simp [blockIndexOf, MemoryBlock.payload, BLOCK_HEADER, Nat.add_assoc]
  have s3 : free ⟨[⟨b0, 16, false, List.replicate 16 0⟩,
        ⟨b0 + 32, 56, true,
          List.replicate 16 0 ++ List.replicate BLOCK_HEADER 0 ++ List.replicate 16 0⟩],
        b0 + 32 + 32 + 32, m⟩ (some (b0 + BLOCK_HEADER)) =
      ⟨[⟨b0, 96, true,
          List.replicate 16 0 ++ List.replicate BLOCK_HEADER 0 ++
            (List.replicate 16 0 ++ List.replicate BLOCK_HEADER 0 ++ List.replicate 16 0)⟩],
        b0 + 32 + 32 + 32, m⟩ := by
    simp only [free, hidxA]
    rfl
  rw [s3]
  exact ⟨rfl, rfl⟩

/-- Witness for C1 at the concrete run from `⟨[], 0, 200⟩`: the three
returned pointers are 24, 56, 88, and after releasing B, C, A the chain
has one block, which is free. -/
theorem middle_out_release_coalesces_witness :
    blockCount (free (free (free ⟨[⟨0, 16, false, List.replicate 16 0⟩,
        ⟨32, 16, false, List.replicate 16 0⟩, ⟨64, 16, false, List.replicate 16 0⟩],
        96, 200⟩ (some 56)) (some 88)) (some 24)) = 1 ∧
    freeBlockCount (free (free (free ⟨[⟨0, 16, false, List.replicate 16 0⟩,
        ⟨32, 16, false, List.replicate 16 0⟩, ⟨64, 16, false, List.replicate 16 0⟩],
        96, 200⟩ (some 56)) (some 88)) (some 24)) = 1 :=
  middle_out_release_coalesces 0 200
    ⟨[⟨0, 16, false, List.replicate 16 0⟩], 32, 200⟩
    ⟨[⟨0, 16, false, List.replicate 16 0⟩, ⟨32, 16, false, List.replicate 16 0⟩], 64, 200⟩
    ⟨[⟨0, 16, false, List.replicate 16 0⟩, ⟨32, 16, false, List.replicate 16 0⟩,
      ⟨64, 16, false, List.replicate 16 0⟩], 96, 200⟩
    24 56 88 (by decide) (by decide) (by decide)

/-- C8: from an empty arena, `allocate(4)`, `release`, `allocate(4)`
returns the identical user address both times: the first-fit search
returns the first chain block with `free` set and sufficient capacity
(and `none` exactly when no block qualifies), so the freed block is
reused in place. -/
theorem alloc_free_alloc_same_address (b0 m : ℕ) (h1 : Heap) (p1 : ℕ)
    (m1 : malloc ⟨[], b0, m⟩ 4 = some (h1, p1)) :
    (∃ h3, malloc (free h1 (some p1)) 4 = some (h3, p1)) ∧
    (∀ (bs : List MemoryBlock) (s : ℕ),
      (findFreeBlock bs s = none ↔ ∀ b ∈ bs, b.isFree = false ∨ b.size < s) ∧
      (∀ i b, findFreeBlock bs s = some (i, b) →
        bs[i]? = some b ∧ b.isFree = true ∧ s ≤ b.size ∧
        ∀ j c, j < i → bs[j]? = some c → c.isFree = false ∨ c.size < s)) := by
  refine ⟨?_, fun bs s => ⟨findFreeBlock_eq_none_iff bs s, findFreeBlock_some_spec bs s⟩⟩
  have hspan : mallocSpan 4 = 16 := by decide
  have halloc : allocSize 16 = 32 := by decide
  obtain ⟨e1, e2⟩ := malloc_empty_inv (by decide) m1
  rw [hspan, halloc] at e1
  subst e1; subst e2
  have hidx : blockIndexOf [⟨b0, 16, false, List.replicate 16 0⟩] (b0 + BLOCK_HEADER) =
      some 0 := by
    simp [blockIndexOf, MemoryBlock.payload, BLOCK_HEADER, Nat.add_assoc]
  have s1 : free ⟨[⟨b0, 16, false, List.replicate 16 0⟩], b0 + 32, m⟩
        (some (b0 + BLOCK_HEADER)) =
      ⟨[⟨b0, 16, true, List.replicate 16 0⟩], b0 + 32, m⟩ := by
    simp only [free, hidx]
    rfl
  rw [s1]
  have hf : findFreeBlock [⟨b0, 16, true, List.replicate 16 0⟩] (mallocSpan 4) =
      some (0, ⟨b0, 16, true, List.replicate 16 0⟩) := by
    rw [hspan]; simp [findFreeBlock]
  refine ⟨⟨replaceAt [⟨b0, 16, true, List.replicate 16 0⟩] 0
      (splitBlock ⟨b0, 16, false, List.replicate 16 0⟩ (mallocSpan 4)), b0 + 32, m⟩, ?_⟩
  rw [malloc]
  rw [if_neg (by decide : ¬ (4 : ℕ) = 0)]
  rw [if_neg (show ¬ (Heap.blocks ⟨[⟨b0, 16, true, List.replicate 16 0⟩], b0 + 32, m⟩).isEmpty =
      true by simp)]
  rw [hf]
  rfl

/-- Witness for C8 at the concrete run from `⟨[], 0, 100⟩`: both
allocations return address 24. -/
theorem alloc_free_alloc_same_address_witness :
    ∃ h3, malloc (free ⟨[⟨0, 16, false, List.replicate 16 0⟩], 32, 100⟩ (some 24)) 4 =
      some (h3, 24) :=
  (alloc_free_alloc_same_address 0 100 ⟨[⟨0, 16, false, List.replicate 16 0⟩], 32, 100⟩ 24
    (by decide)).1

/-- C7 (amended): `calloc(count, size)` computes `total = count * size`
in wrapping `size_t` arithmetic and (1) returns null when `count != 0`
and `total / count != size` (the overflow guard); (2) otherwise behaves
exactly as `malloc(total)` followed, on success, by zero-filling —
in particular it also returns null whenever that allocation fails, e.g.
for `count * size = 0` or on OS refusal, so the overflow guard is not
the only null source; (3) on success the first `total` bytes at the
returned pointer are all zero. -/
theorem calloc_spec :
    (∀ (h : Heap) (n s : ℕ), n ≠ 0 → ((n * s) % MOD) / n ≠ s → calloc h n s = (h, none)) ∧
    (∀ (h : Heap) (n s : ℕ), ¬(n ≠ 0 ∧ ((n * s) % MOD) / n ≠ s) →
      calloc h n s =
        match malloc h ((n * s) % MOD) with
        | none => (h, none)
        | some (h', p) =>
            ({ h' with blocks := memsetZero h'.blocks p ((n * s) % MOD) }, some p)) ∧
    (∀ (h h' : Heap) (n s p : ℕ), calloc h n s = (h', some p) →
      ∃ b, lookupPayload h'.blocks p = some b ∧
        b.data.take ((n * s) % MOD) = List.replicate ((n * s) % MOD) 0 ∧
        (n * s) % MOD ≤ b.data.length) := by
  refine ⟨fun h n s hn ho => ?_, fun h n s hg => ?_, fun h h' n s p hc => ?_⟩
  · rw [calloc, if_pos ⟨hn, ho⟩]
  · rw [calloc, if_neg hg]
  · rw [calloc] at hc
    by_cases hg : n ≠ 0 ∧ ((n * s) % MOD) / n ≠ s
    · rw [if_pos hg] at hc
      exact absurd hc (by simp)
    · rw [if_neg hg] at hc
      cases hm : malloc h ((n * s) % MOD) with
      | none =>
          rw [hm] at hc
          exact absurd hc (by simp)
      | some r =>
          obtain ⟨h2, q⟩ := r
          rw [hm] at hc
          simp only [Prod.mk.injEq, Option.some.injEq] at hc
          obtain ⟨hh, hq⟩ := hc
          subst hh; subst hq
          obtain ⟨D, hD⟩ := malloc_payload_lookup hm
          refine ⟨⟨D.addr, D.size, D.isFree,
              List.replicate ((n * s) % MOD) 0 ++ D.data.drop ((n * s) % MOD)⟩, ?_, ?_, ?_⟩
          · show lookupPayload (memsetZero h2.blocks q ((n * s) % MOD)) q = _
            rw [memsetZero, lookupPayload_setDataAt_self, hD]
            rfl
          · have hlen : ((n * s) % MOD) ≤ (List.replicate ((n * s) % MOD) (0 : ℕ)).length := by
              simp
            simp [List.take_append_eq_append_take, List.take_replicate]
          · simp

/-- Counterexample for C7 as stated: `calloc(0, 5)` passes the overflow
guard (`count = 0`) yet returns null, because it forwards to `malloc(0)`,
which rejects the zero request — so null is not returned "exactly when"
the multiplication overflows. -/
theorem calloc_counterexample :
    calloc ⟨[], 0, 100⟩ 0 5 = (⟨[], 0, 100⟩, none) ∧
    ¬((0 : ℕ) ≠ 0 ∧ ((0 * 5 : ℕ) % MOD) / 0 ≠ 5) := by
  decide

/-- Witness for C7 at concrete inputs: `calloc(2, 2^63 + 1)` trips the
overflow guard and returns null; `calloc(3, 4)` succeeds and the first
12 bytes at the returned pointer 24 are zero. -/
theorem calloc_spec_witness :
    calloc ⟨[], 0, 100⟩ 2 (2 ^ 63 + 1) = (⟨[], 0, 100⟩, none) ∧
    (∃ b, lookupPayload (Heap.blocks ⟨[⟨0, 24, false, List.replicate 24 0⟩], 40, 100⟩) 24 =
        some b ∧
      b.data.take ((3 * 4) % MOD) = List.replicate ((3 * 4) % MOD) 0 ∧
      (3 * 4) % MOD ≤ b.data.length) := by
  constructor
  · exact calloc_spec.1 ⟨[], 0, 100⟩ 2 (2 ^ 63 + 1) (by decide) (by decide)
  · exact calloc_spec.2.2 ⟨[], 0, 100⟩ ⟨[⟨0, 24, false, List.replicate 24 0⟩], 40, 100⟩ 3 4 24
      (by decide)

/-! ## Chain invariant lemmas (no two adjacent free blocks) -/

theorem mergeRun_fst_isFree (l : List MemoryBlock) :
    ∀ b : MemoryBlock, ((mergeRun b l).1).isFree = b.isFree := by
  induction l with
  | nil => intro b; rfl
  | cons c cs ih =>
      intro b
      rw [mergeRun]
      by_cases hc : c.isFree = true
      · rw [if_pos hc]; exact ih (mergeInto b c)
      · rw [if_neg hc]

end MemAlloc
